import Mathlib

/-!
Shallow embedding of the queuectl job queue (src/src/storage.py and
src/src/executor.py).

The SQLite `jobs` table is modelled as a `List Job`; each storage method
becomes a pure function from the table (plus the wall-clock time `now`,
which the Python code reads via `datetime.now`) to the new table and the
method's return value.  ISO-8601 UTC timestamps compare lexicographically,
which is order-equivalent to temporal order, so timestamps are embedded as
`Int`.  SQL `UPDATE ... WHERE` is a `List.map` guarded by the WHERE
condition, `SELECT ... WHERE id = ?` is `List.find?`, and the
`conn.total_changes > 0` checks are existence checks on the WHERE clause.
Concurrency (the `BEGIN IMMEDIATE` lock and the `sqlite3.OperationalError`
contention path) is outside the embedding: each operation is one atomic
step.
-/

namespace QueueCtl

/-- The five job states of the `state` column. -/
inductive JState where
  | pending
  | processing
  | completed
  | failed
  | dead
deriving DecidableEq, Repr

/-- One row of the `jobs` table (schema in `Storage.init_db`).  Nullable
columns are `Option`. -/
structure Job where
  id : String
  command : String
  state : JState
  attempts : Nat
  max_retries : Nat
  created_at : Int
  updated_at : Int
  next_run_at : Int
  last_error : Option String
  locked_by : Option String
  locked_at : Option Int
deriving DecidableEq, Repr

/-- The row inserted by `Storage.enqueue_job`: state `pending`, zero
attempts, `created_at = updated_at = now`, `next_run_at` defaulting to
`now` when the caller supplied none (`job.get('next_run_at', now)`). -/
def mkJob (now : Int) (id command : String) (mr : Nat) (nra : Option Int) : Job :=
  { id := id, command := command, state := .pending, attempts := 0,
    max_retries := mr, created_at := now, updated_at := now,
    next_run_at := nra.getD now, last_error := none,
    locked_by := none, locked_at := none }

/-- Embedding of `Storage.enqueue_job`: INSERT the new row; the PRIMARY KEY constraint
raises `IntegrityError` when the id already exists, caught and turned into
`False` with no change. -/
def enqueue_job (tbl : List Job) (now : Int) (id command : String)
    (mr : Nat) (nra : Option Int) : List Job × Bool :=
  if tbl.any (fun j => decide (j.id = id)) then (tbl, false)
  else (tbl ++ [mkJob now id command mr nra], true)

/-- The WHERE clause of the dispatch SELECT in `Storage.acquire_job`:
`state = 'pending' AND next_run_at <= now`. -/
def isReady (now : Int) (j : Job) : Bool :=
  decide (j.state = .pending) && decide (j.next_run_at ≤ now)

/-- The dispatch SELECT of `Storage.acquire_job`:
`SELECT * ... ORDER BY created_at LIMIT 1` over the ready rows; among
rows with equal `created_at` the store's internal (list) order decides. -/
def selectNext (now : Int) : List Job → Option Job
  | [] => none
  | j :: rest =>
    match selectNext now rest with
    | none => if isReady now j then some j else none
    | some b =>
      if isReady now j && decide (j.created_at ≤ b.created_at) then some j
      else some b

/-- Embedding of `Storage.acquire_job`: select the next ready row, and when one exists
UPDATE it to `processing` with the lease fields set and `attempts`
incremented, then re-fetch and return the updated row. -/
def acquire_job (tbl : List Job) (now : Int) (worker_id : String) :
    List Job × Option Job :=
  match selectNext now tbl with
  | none => (tbl, none)
  | some j =>
    let tbl' := tbl.map (fun r =>
      if r.id = j.id then
        { r with state := .processing, locked_by := some worker_id,
                 locked_at := some now, attempts := r.attempts + 1,
                 updated_at := now }
      else r)
    (tbl', tbl'.find? (fun r => decide (r.id = j.id)))

/-- Embedding of `Storage.update_job_success`: UPDATE to `completed`, lease fields
NULL, `updated_at = now`, WHERE id matches (no state condition). -/
def update_job_success (tbl : List Job) (now : Int) (job_id : String) :
    List Job :=
  tbl.map (fun r =>
    if r.id = job_id then
      { r with state := .completed, updated_at := now,
               locked_by := none, locked_at := none }
    else r)

/-- Embedding of `Storage.update_job_failure`: read the row's `attempts` and
`max_retries`; if the row is absent, return with no change; if
`attempts >= max_retries` move it to `dead`, else to `failed` with
`next_run_at = now + backoff_base ** attempts`; both branches clear the
lease fields and set `last_error`. -/
def update_job_failure (tbl : List Job) (now : Int) (job_id error : String)
    (backoff_base : Int) : List Job :=
  match tbl.find? (fun r => decide (r.id = job_id)) with
  | none => tbl
  | some row =>
    if row.max_retries ≤ row.attempts then
      tbl.map (fun r =>
        if r.id = job_id then
          { r with state := .dead, updated_at := now,
                   last_error := some error,
                   locked_by := none, locked_at := none }
        else r)
    else
      tbl.map (fun r =>
        if r.id = job_id then
          { r with state := .failed, updated_at := now,
                   next_run_at := now + backoff_base ^ row.attempts,
                   last_error := some error,
                   locked_by := none, locked_at := none }
        else r)

/-- Embedding of `Storage.retry_dlq_job`: UPDATE WHERE `id = ? AND state = 'dead'` to
`pending` with `next_run_at = updated_at = now` and `last_error` NULL,
resetting `attempts` to 0 exactly when `reset_attempts`; returns whether
the UPDATE touched a row (`conn.total_changes > 0`). -/
def retry_dlq_job (tbl : List Job) (now : Int) (job_id : String)
    (reset_attempts : Bool) : List Job × Bool :=
  (tbl.map (fun r =>
    if r.id = job_id ∧ r.state = .dead then
      if reset_attempts then
        { r with state := .pending, attempts := 0, next_run_at := now,
                 updated_at := now, last_error := none }
      else
        { r with state := .pending, next_run_at := now,
                 updated_at := now, last_error := none }
    else r),
   tbl.any (fun r => decide (r.id = job_id ∧ r.state = .dead)))

/-- Embedding of `Storage.delete_dlq_job`: DELETE WHERE `id = ? AND state = 'dead'`;
returns whether a row was deleted. -/
def delete_dlq_job (tbl : List Job) (job_id : String) : List Job × Bool :=
  (tbl.filter (fun r => !decide (r.id = job_id ∧ r.state = .dead)),
   tbl.any (fun r => decide (r.id = job_id ∧ r.state = .dead)))

/-- The WHERE clause of `Storage.recover_abandoned_jobs`:
`state = 'processing' AND locked_at < cutoff` (a NULL `locked_at`
compares as unknown, hence does not match). -/
def isAbandoned (cutoff : Int) (j : Job) : Bool :=
  decide (j.state = .processing) &&
    (match j.locked_at with
     | some t => decide (t < cutoff)
     | none => false)

/-- Embedding of `Storage.recover_abandoned_jobs`: reset every row with
`state = 'processing'` and `locked_at < now - threshold_seconds` to
`pending` with the lease fields cleared; nothing else changes. -/
def recover_abandoned_jobs (tbl : List Job) (now : Int)
    (threshold_seconds : Int) : List Job :=
  tbl.map (fun r =>
    if isAbandoned (now - threshold_seconds) r then
      { r with state := .pending, locked_by := none, locked_at := none }
    else r)

/-- Result of `Executor.execute` (`duration`, a wall-clock measurement,
is not modelled). -/
structure ExecutionResult where
  returncode : Int
  stdout : String
  stderr : String
deriving DecidableEq, Repr

/-- How the `subprocess.run` call inside `Executor.execute` ends: a normal
completion, `subprocess.TimeoutExpired`, `FileNotFoundError`, or any other
exception. -/
inductive ExecOutcome where
  | normal (returncode : Int) (stdout stderr : String)
  | timedOut
  | fileNotFound (msg : String)
  | otherError (msg : String)
deriving DecidableEq, Repr

/-- Embedding of `Executor.execute`: map each outcome of the subprocess call to the
structured result the method returns from the corresponding
`try`/`except` branch. -/
def Executor.execute (timeout : Nat) (outcome : ExecOutcome) :
    ExecutionResult :=
  match outcome with
  | .normal rc out err => { returncode := rc, stdout := out, stderr := err }
  | .timedOut =>
      { returncode := -1, stdout := "",
        stderr := "Command timed out after " ++ toString timeout ++ " seconds" }
  | .fileNotFound msg =>
      { returncode := 127, stdout := "", stderr := "Command not found: " ++ msg }
  | .otherError msg =>
      { returncode := -1, stdout := "", stderr := "Execution error: " ++ msg }

/-- One invocation of a mutating storage operation, with the wall-clock
time it observes. -/
inductive StorageOp where
  | enqueueOp (now : Int) (id command : String) (mr : Nat) (nra : Option Int)
  | acquireOp (now : Int) (worker : String)
  | completeOp (now : Int) (job_id : String)
  | failOp (now : Int) (job_id error : String) (base : Int)
  | recoverOp (now : Int) (threshold_seconds : Int)
  | retryDlqOp (now : Int) (job_id : String) (reset : Bool)
  | deleteDlqOp (job_id : String)

/-- Apply one storage operation to the jobs table, discarding the return
value. -/
def applyOp (tbl : List Job) : StorageOp → List Job
  | .enqueueOp now id cmd mr nra => (enqueue_job tbl now id cmd mr nra).1
  | .acquireOp now w => (acquire_job tbl now w).1
  | .completeOp now jid => update_job_success tbl now jid
  | .failOp now jid err b => update_job_failure tbl now jid err b
  | .recoverOp now th => recover_abandoned_jobs tbl now th
  | .retryDlqOp now jid r => retry_dlq_job tbl now jid r |>.1
  | .deleteDlqOp jid => (delete_dlq_job tbl jid).1

/-- The jobs table reached from the empty table by a sequence of storage
operations. -/
def runOps (ops : List StorageOp) : List Job :=
  ops.foldl applyOp []

/-- The lease invariant of one row: `locked_by` is non-null iff
`locked_at` is non-null iff `state = processing`. -/
def leaseInv (j : Job) : Prop :=
  (j.locked_by ≠ none ↔ j.state = .processing) ∧
  (j.locked_at ≠ none ↔ j.state = .processing)

/-- Zipping a list with its image under a map pairs each element with its
image. -/
lemma zip_map_self {α : Type} (f : α → α) (l : List α) :
    ∀ p ∈ l.zip (l.map f), p.2 = f p.1 := by
  induction l with
  | nil => intro p hp; simp at hp
  | cons a t ih =>
    intro p hp
    simp only [List.map_cons, List.zip_cons_cons, List.mem_cons] at hp
    rcases hp with h | h
    · rw [h]
    · exact ih p h

/-- A map that fixes every element of the list is the identity on it. -/
lemma map_eq_self_of_fixed {α : Type} {f : α → α} {l : List α}
    (h : ∀ a ∈ l, f a = a) : l.map f = l := by
  calc l.map f = l.map id := List.map_congr_left h
  _ = l := l.map_id

/-- C1: the dispatch SELECT of `acquire_job` filters on
`state = 'pending'` alone, so a job in state `failed` whose `next_run_at`
has passed is never acquired: after one failure with backoff, a later
`acquire` returns none and modifies no row, although the job is the
(unique, hence oldest) ready one under the claim's
`state IN (pending, failed)` condition.  This contradicts the retry
design the code itself advertises (`update_job_failure` schedules
`next_run_at` and logs that the job "will retry"). -/
theorem acquire_ignores_ready_failed_job :
    (let tbl1 := (enqueue_job [] 0 "j1" "exit 1" 3 none).1
     let tbl2 := (acquire_job tbl1 0 "w1").1
     let tbl3 := update_job_failure tbl2 0 "j1" "boom" 2
     tbl3.map (fun r => (r.id, r.state, r.next_run_at, r.attempts)) =
        [("j1", JState.failed, 2, 1)] ∧
     acquire_job tbl3 10 "w2" = (tbl3, none)) := by
  decide

/-- C2: a job that always fails does not reach `dead` after
`max_retries + 1` acquisitions with `attempts = max_retries + 1`.  With
`max_retries = 1` it is already `dead` after a single acquisition, with
`attempts = 1`; and with `max_retries = 2` it never reaches `dead` at
all: after the first failure it rests in `failed`, which `acquire_job`
never selects, so no further acquisition (and hence no further failure)
can occur. -/
theorem always_failing_job_dies_early :
    (let t1 := (enqueue_job [] 0 "j" "fail" 1 none).1
     let t2 := (acquire_job t1 0 "w").1
     let t3 := update_job_failure t2 0 "j" "Exit code: 1" 2
     t3.map (fun r => (r.state, r.attempts)) = [(JState.dead, 1)]) ∧
    (let u1 := (enqueue_job [] 0 "k" "fail" 2 none).1
     let u2 := (acquire_job u1 0 "w").1
     let u3 := update_job_failure u2 0 "k" "Exit code: 1" 2
     u3.map (fun r => (r.state, r.attempts)) = [(JState.failed, 1)] ∧
     (acquire_job u3 1000000 "w").2 = none) := by
  decide

/-- C9: `Executor.execute` yields a structured result in every case: a
normal run returns the subprocess's exit code together with its stdout
and stderr; a timeout returns returncode -1 with a synthetic stderr
noting the timeout; a command-not-found error returns returncode 127;
any other exception returns returncode -1 with the error message in
stderr.  (Totality of the function is the embedding of "never
raises".) -/
theorem execute_spec (timeout : Nat) :
    (∀ rc out err, Executor.execute timeout (.normal rc out err) =
        { returncode := rc, stdout := out, stderr := err }) ∧
    Executor.execute timeout .timedOut =
      { returncode := -1, stdout := "",
        stderr := "Command timed out after " ++ toString timeout ++ " seconds" } ∧
    (∀ msg, Executor.execute timeout (.fileNotFound msg) =
        { returncode := 127, stdout := "",
          stderr := "Command not found: " ++ msg }) ∧
    (∀ msg, Executor.execute timeout (.otherError msg) =
        { returncode := -1, stdout := "",
          stderr := "Execution error: " ++ msg }) :=
  ⟨fun _ _ _ => rfl, rfl, fun _ => rfl, fun _ => rfl⟩

/-- C5: `enqueue_job` returns false and changes nothing when a row with
the id already exists; otherwise it appends exactly one row with state
`pending`, `attempts = 0`, `created_at = updated_at = now`, `next_run_at`
equal to the supplied value or `now` when absent, and returns true. -/
theorem enqueue_job_spec (tbl : List Job) (now : Int) (id cmd : String)
    (mr : Nat) (nra : Option Int) :
    ((∃ j ∈ tbl, j.id = id) →
       enqueue_job tbl now id cmd mr nra = (tbl, false)) ∧
    ((∀ j ∈ tbl, j.id ≠ id) →
       enqueue_job tbl now id cmd mr nra =
         (tbl ++ [{ id := id, command := cmd, state := .pending,
                    attempts := 0, max_retries := mr, created_at := now,
                    updated_at := now, next_run_at := nra.getD now,
                    last_error := none, locked_by := none,
                    locked_at := none }], true)) := by
  constructor
  · rintro ⟨j, hj, hid⟩
    have hany : tbl.any (fun j => decide (j.id = id)) = true := by
      simp only [List.any_eq_true, decide_eq_true_eq]
      exact ⟨j, hj, hid⟩
    simp [enqueue_job, hany]
  · intro hno
    have hany : tbl.any (fun j => decide (j.id = id)) = false := by
      simp only [List.any_eq_false, decide_eq_true_eq]
      exact hno
    simp [enqueue_job, hany, mkJob]

/-- C10: `update_job_success` performs no state check: for every row
whose id matches — whatever its current state, `pending`, `failed`,
`dead` or `processing` — it sets state `completed`, clears the lease
fields and stamps `updated_at`; every other row is untouched, and when no
row has the id the table is entirely unchanged. -/
theorem update_job_success_unconditional (tbl : List Job) (now : Int)
    (job_id : String) :
    (∀ p ∈ tbl.zip (update_job_success tbl now job_id),
       (p.1.id = job_id →
          p.2 = { p.1 with
                  state := .completed, updated_at := now,
                  locked_by := none, locked_at := none }) ∧
       (p.1.id ≠ job_id → p.2 = p.1)) ∧
    ((∀ r ∈ tbl, r.id ≠ job_id) → update_job_success tbl now job_id = tbl) := by
  constructor
  · intro p hp
    have h2 := zip_map_self _ tbl p hp
    constructor
    · intro hid
      rw [h2]
      simp [hid]
    · intro hid
      rw [h2]
      simp [hid]
  · intro hno
    apply map_eq_self_of_fixed
    intro r hr
    simp [hno r hr]

/-- C8: `update_job_success` sets state `completed`, clears `locked_by`
and `locked_at` and stamps `updated_at`; and it is idempotent with
respect to repeated completion: completing a job a second time leaves
the table exactly as a single completion (at the second call's clock)
would. -/
theorem update_job_success_idempotent (tbl : List Job) (t1 t2 : Int)
    (job_id : String) :
    (∀ p ∈ tbl.zip (update_job_success tbl t1 job_id),
       (p.1.id = job_id →
          p.2 = { p.1 with
                  state := .completed, updated_at := t1,
                  locked_by := none, locked_at := none }) ∧
       (p.1.id ≠ job_id → p.2 = p.1)) ∧
    update_job_success (update_job_success tbl t1 job_id) t2 job_id =
      update_job_success tbl t2 job_id := by
  constructor
  · intro p hp
    have h2 := zip_map_self _ tbl p hp
    constructor
    · intro hid
      rw [h2]
      simp [hid]
    · intro hid
      rw [h2]
      simp [hid]
  · unfold update_job_success
    rw [List.map_map]
    apply List.map_congr_left
    intro r _
    by_cases hid : r.id = job_id
    · simp [Function.comp, hid]
    · simp [Function.comp, hid]

/-- C6: `retry_dlq_job` touches exactly the rows with the given id in
state `dead`, setting them to `pending` with `next_run_at = now` and
`last_error` cleared, resetting `attempts` to 0 iff `reset_attempts`; it
returns true iff such a row exists, and on an absent or non-dead id it
returns false and changes nothing. -/
theorem retry_dlq_job_spec (tbl : List Job) (now : Int) (job_id : String)
    (reset_attempts : Bool) :
    ((retry_dlq_job tbl now job_id reset_attempts).2 = true ↔
       ∃ r ∈ tbl, r.id = job_id ∧ r.state = .dead) ∧
    (∀ p ∈ tbl.zip (retry_dlq_job tbl now job_id reset_attempts).1,
       (p.1.id = job_id ∧ p.1.state = .dead →
          p.2 = { p.1 with
                  state := .pending,
                  attempts := if reset_attempts then 0 else p.1.attempts,
                  next_run_at := now, updated_at := now,
                  last_error := none }) ∧
       (¬(p.1.id = job_id ∧ p.1.state = .dead) → p.2 = p.1)) ∧
    ((∀ r ∈ tbl, ¬(r.id = job_id ∧ r.state = .dead)) →
       (retry_dlq_job tbl now job_id reset_attempts).1 = tbl) := by
  refine ⟨?_, ?_, ?_⟩
  · simp [retry_dlq_job, List.any_eq_true]
  · intro p hp
    have h2 := zip_map_self _ tbl p hp
    constructor
    · intro hc
      rw [h2]
      cases reset_attempts with
      | false => simp [hc]
      | true => simp [hc]
    · intro hc
      rw [h2]
      simp [retry_dlq_job, hc]
  · intro hno
    apply map_eq_self_of_fixed
    intro r hr
    simp [hno r hr]

/-- C7: `recover_abandoned_jobs` resets exactly the rows with state
`processing` and `locked_at < now - threshold_seconds` to `pending` with
both lease fields cleared — `attempts` and every other column of a reset
row are untouched, as the record update shows — and leaves every
non-matching row entirely unchanged. -/
theorem recover_abandoned_jobs_spec (tbl : List Job)
    (now threshold_seconds : Int) :
    (recover_abandoned_jobs tbl now threshold_seconds).length = tbl.length ∧
    ∀ p ∈ tbl.zip (recover_abandoned_jobs tbl now threshold_seconds),
      (p.1.state = .processing ∧
         (∃ t, p.1.locked_at = some t ∧ t < now - threshold_seconds) →
        p.2 = { p.1 with
                state := .pending, locked_by := none,
                locked_at := none }) ∧
      (¬(p.1.state = .processing ∧
         (∃ t, p.1.locked_at = some t ∧ t < now - threshold_seconds)) →
        p.2 = p.1) := by
  constructor
  · exact List.length_map tbl _
  · intro p hp
    have h2 := zip_map_self _ tbl p hp
    have hiff : isAbandoned (now - threshold_seconds) p.1 = true ↔
        (p.1.state = .processing ∧
          (∃ t, p.1.locked_at = some t ∧ t < now - threshold_seconds)) := by
      cases hla : p.1.locked_at with
      | none => simp [isAbandoned, hla]
      | some t => simp [isAbandoned, hla]
    constructor
    · intro hc
      rw [h2]
      simp [hiff.mpr hc]
    · intro hc
      rw [h2]
      have : isAbandoned (now - threshold_seconds) p.1 = false := by
        rcases Bool.eq_false_or_eq_true (isAbandoned (now - threshold_seconds) p.1) with h | h
        · exact absurd (hiff.mp h) hc
        · exact h
      simp [this]

/-- C3: `update_job_failure` on an existing job moves it to `dead` with
the lease fields cleared and `last_error` set when its current
`attempts >= max_retries`, and otherwise to `failed` with
`next_run_at = now + backoff_base ^ attempts` (the attempts counter as
already incremented by `acquire_job`, so the first failure waits
`base ^ 1` seconds), lease fields cleared and `last_error` set; rows with
a different id are unchanged. -/
theorem update_job_failure_spec (tbl : List Job) (now : Int)
    (job_id error : String) (backoff_base : Int) (row : Job)
    (hrow : tbl.find? (fun r => decide (r.id = job_id)) = some row) :
    (row.max_retries ≤ row.attempts →
       (update_job_failure tbl now job_id error backoff_base).find?
           (fun r => decide (r.id = job_id)) =
         some { row with
                state := .dead, updated_at := now,
                last_error := some error,
                locked_by := none, locked_at := none }) ∧
    (row.attempts < row.max_retries →
       (update_job_failure tbl now job_id error backoff_base).find?
           (fun r => decide (r.id = job_id)) =
         some { row with
                state := .failed, updated_at := now,
                next_run_at := now + backoff_base ^ row.attempts,
                last_error := some error,
                locked_by := none, locked_at := none }) ∧
    (∀ p ∈ tbl.zip (update_job_failure tbl now job_id error backoff_base),
       p.1.id ≠ job_id → p.2 = p.1) := by
  have hid : row.id = job_id := by
    have := List.find?_some hrow
    simpa using this
  refine ⟨?_, ?_, ?_⟩
  · intro hle
    unfold update_job_failure
    rw [hrow]
    dsimp only
    rw [if_pos hle, List.find?_map]
    have hcomp : ((fun r => decide (r.id = job_id)) ∘
        (fun r => if r.id = job_id then
          { r with state := .dead, updated_at := now,
                   last_error := some error,
                   locked_by := none, locked_at := none }
         else r)) = (fun r : Job => decide (r.id = job_id)) := by
      funext r
      by_cases h : r.id = job_id
      · simp [h]
      · simp [h]
    rw [hcomp, hrow]
    simp [hid]
  · intro hlt
    unfold update_job_failure
    rw [hrow]
    dsimp only
    rw [if_neg (by omega), List.find?_map]
    have hcomp : ((fun r => decide (r.id = job_id)) ∘
        (fun r => if r.id = job_id then
          { r with state := .failed, updated_at := now,
                   next_run_at := now + backoff_base ^ row.attempts,
                   last_error := some error,
                   locked_by := none, locked_at := none }
         else r)) = (fun r : Job => decide (r.id = job_id)) := by
      funext r
      by_cases h : r.id = job_id
      · simp [h]
      · simp [h]
    rw [hcomp, hrow]
    simp [hid]
  · intro p hp hne
    unfold update_job_failure at hp
    rw [hrow] at hp
    dsimp only at hp
    by_cases hle : row.max_retries ≤ row.attempts
    · rw [if_pos hle] at hp
      have h2 := zip_map_self _ tbl p hp
      rw [h2]
      simp [hne]
    · rw [if_neg hle] at hp
      have h2 := zip_map_self _ tbl p hp
      rw [h2]
      simp [hne]

/-- Appending preserves a pointwise property of a list. -/
lemma forall_mem_map_inv {f : Job → Job} {tbl : List Job}
    (h : ∀ j ∈ tbl, leaseInv j)
    (hf : ∀ j ∈ tbl, leaseInv j → leaseInv (f j)) :
    ∀ j ∈ tbl.map f, leaseInv j := by
  intro j hj
  rcases List.mem_map.mp hj with ⟨a, ha, rfl⟩
  exact hf a ha (h a ha)

/-- The freshly enqueued row satisfies the lease invariant. -/
lemma leaseInv_mkJob (now : Int) (id cmd : String) (mr : Nat)
    (nra : Option Int) : leaseInv (mkJob now id cmd mr nra) := by
  constructor <;> simp [mkJob]

/-- Every storage operation preserves the per-row lease invariant. -/
lemma applyOp_preserves (tbl : List Job) (op : StorageOp)
    (h : ∀ j ∈ tbl, leaseInv j) : ∀ j ∈ applyOp tbl op, leaseInv j := by
  cases op with
  | enqueueOp now id cmd mr nra =>
    by_cases hc : tbl.any (fun j => decide (j.id = id)) = true
    · simpa [applyOp, enqueue_job, hc] using h
    · intro j hj
      simp only [applyOp, enqueue_job, hc, if_false, Bool.not_eq_true] at hj
      rcases List.mem_append.mp hj with hj' | hj'
      · exact h j hj'
      · have : j = mkJob now id cmd mr nra := by simpa using hj'
        rw [this]
        exact leaseInv_mkJob now id cmd mr nra
  | acquireOp now w =>
    simp only [applyOp, acquire_job]
    cases hsel : selectNext now tbl with
    | none => simpa using h
    | some j0 =>
      simp only []
      apply forall_mem_map_inv h
      intro r hr hinv
      by_cases hidc : r.id = j0.id
      · simp [hidc, leaseInv]
      · simpa [hidc] using hinv
  | completeOp now jid =>
    simp only [applyOp, update_job_success]
    apply forall_mem_map_inv h
    intro r hr hinv
    by_cases hidc : r.id = jid
    · simp [hidc, leaseInv]
    · simpa [hidc] using hinv
  | failOp now jid err b =>
    simp only [applyOp, update_job_failure]
    cases hfind : tbl.find? (fun r => decide (r.id = jid)) with
    | none => simpa using h
    | some row =>
      simp only []
      by_cases hle : row.max_retries ≤ row.attempts
      · rw [if_pos hle]
        apply forall_mem_map_inv h
        intro r hr hinv
        by_cases hidc : r.id = jid
        · simp [hidc, leaseInv]
        · simpa [hidc] using hinv
      · rw [if_neg hle]
        apply forall_mem_map_inv h
        intro r hr hinv
        by_cases hidc : r.id = jid
        · simp [hidc, leaseInv]
        · simpa [hidc] using hinv
  | recoverOp now th =>
    simp only [applyOp, recover_abandoned_jobs]
    apply forall_mem_map_inv h
    intro r hr hinv
    by_cases habn : isAbandoned (now - th) r = true
    · simp [habn, leaseInv]
    · simp only [Bool.not_eq_true] at habn
      simpa [habn] using hinv
  | retryDlqOp now jid rs =>
    simp only [applyOp, retry_dlq_job]
    apply forall_mem_map_inv h
    intro r hr hinv
    by_cases hc : r.id = jid ∧ r.state = .dead
    · have hlb : r.locked_by = none := by
        cases hlb' : r.locked_by with
        | none => rfl
        | some v =>
          have hproc := hinv.1.mp (by simp [hlb'])
          rw [hc.2] at hproc
          exact absurd hproc (by simp)
      have hla : r.locked_at = none := by
        cases hla' : r.locked_at with
        | none => rfl
        | some v =>
          have hproc := hinv.2.mp (by simp [hla'])
          rw [hc.2] at hproc
          exact absurd hproc (by simp)
      cases rs with
      | true => simp [hc, leaseInv, hlb, hla]
      | false => simp [hc, leaseInv, hlb, hla]
    · simpa [hc] using hinv
  | deleteDlqOp jid =>
    intro j hj
    simp only [applyOp, delete_dlq_job] at hj
    exact h j (List.mem_of_mem_filter hj)

/-- The lease invariant holds after any sequence of operations applied to
an invariant-satisfying table. -/
lemma foldl_applyOp_preserves (ops : List StorageOp) :
    ∀ tbl, (∀ j ∈ tbl, leaseInv j) →
      ∀ j ∈ ops.foldl applyOp tbl, leaseInv j := by
  induction ops with
  | nil => intro tbl h; simpa using h
  | cons op rest ih =>
    intro tbl h
    exact ih _ (applyOp_preserves tbl op h)

/-- C4: for every job row at every commit boundary reachable from the
empty table by any sequence of the storage operations (enqueue, acquire,
complete, fail, recover_abandoned, retry_dlq, delete_dlq): `locked_by`
is non-null iff `locked_at` is non-null iff `state = processing`. -/
theorem lease_state_invariant (ops : List StorageOp) :
    ∀ j ∈ runOps ops,
      (j.locked_by ≠ none ↔ j.state = .processing) ∧
      (j.locked_at ≠ none ↔ j.state = .processing) ∧
      (j.locked_by ≠ none ↔ j.locked_at ≠ none) := by
  intro j hj
  have hinv := foldl_applyOp_preserves ops [] (by simp) j hj
  exact ⟨hinv.1, hinv.2, hinv.1.trans hinv.2.symm⟩

/-- A sample row in state `dead`, as left by exhausting the retry
budget. -/
def wDead : Job :=
  { id := "d", command := "c", state := .dead, attempts := 4,
    max_retries := 3, created_at := 0, updated_at := 0, next_run_at := 0,
    last_error := some "boom", locked_by := none, locked_at := none }

/-- A sample row in state `processing`, as left by `acquire_job`. -/
def wProc : Job :=
  { id := "r", command := "c", state := .processing, attempts := 1,
    max_retries := 3, created_at := 0, updated_at := 5, next_run_at := 0,
    last_error := none, locked_by := some "w", locked_at := some 5 }

/-- A sample operation sequence: one enqueue followed by one acquire. -/
def wOps : List StorageOp :=
  [.enqueueOp 0 "a" "c" 3 none, .acquireOp 0 "w"]

/-- The row `wOps` produces. -/
def wAcquired : Job :=
  { id := "a", command := "c", state := .processing, attempts := 1,
    max_retries := 3, created_at := 0, updated_at := 0, next_run_at := 0,
    last_error := none, locked_by := some "w", locked_at := some 0 }

/-- Witness for C3: a processing row with one attempt left fails into
`failed` with a `base ^ attempts` backoff. -/
theorem update_job_failure_spec_witness :
    ([wProc].find? (fun r => decide (r.id = "r")) = some wProc) ∧
    wProc.attempts < wProc.max_retries ∧
    (update_job_failure [wProc] 7 "r" "boom" 2).find?
        (fun r => decide (r.id = "r")) =
      some { wProc with
             state := .failed, updated_at := 7,
             next_run_at := 7 + 2 ^ wProc.attempts,
             last_error := some "boom", locked_by := none,
             locked_at := none } :=
  ⟨by decide, by decide,
   (update_job_failure_spec [wProc] 7 "r" "boom" 2 wProc (by decide)).2.1
     (by decide)⟩

/-- Witness for C4: the row acquired after an enqueue satisfies the
lease/state equivalences. -/
theorem lease_state_invariant_witness :
    wAcquired ∈ runOps wOps ∧
      ((wAcquired.locked_by ≠ none ↔ wAcquired.state = .processing) ∧
       (wAcquired.locked_at ≠ none ↔ wAcquired.state = .processing) ∧
       (wAcquired.locked_by ≠ none ↔ wAcquired.locked_at ≠ none)) :=
  ⟨by decide, lease_state_invariant wOps wAcquired (by decide)⟩

/-- Witness for C5: enqueue into an empty table inserts the pending
row and returns true. -/
theorem enqueue_job_spec_witness :
    (∀ j ∈ ([] : List Job), j.id ≠ "a") ∧
    enqueue_job [] 0 "a" "c" 3 none =
      ([{ id := "a", command := "c", state := .pending, attempts := 0,
          max_retries := 3, created_at := 0, updated_at := 0,
          next_run_at := 0, last_error := none, locked_by := none,
          locked_at := none }], true) :=
  ⟨by simp, (enqueue_job_spec [] 0 "a" "c" 3 none).2 (by simp)⟩

/-- Witness for C6: retrying a dead row resets it to pending with
`attempts = 0`. -/
theorem retry_dlq_job_spec_witness :
    ((wDead, { wDead with
               state := .pending, attempts := 0, next_run_at := 9,
               updated_at := 9, last_error := none }) ∈
        [wDead].zip (retry_dlq_job [wDead] 9 "d" true).1) ∧
    (wDead.id = "d" ∧ wDead.state = .dead) ∧
    ({ wDead with
       state := .pending, attempts := 0, next_run_at := 9,
       updated_at := 9, last_error := none } : Job) =
      { wDead with
        state := .pending, attempts := if true then 0 else wDead.attempts,
        next_run_at := 9, updated_at := 9, last_error := none } :=
  ⟨by decide, by decide,
   ((retry_dlq_job_spec [wDead] 9 "d" true).2.1
      (wDead, { wDead with
                state := .pending, attempts := 0, next_run_at := 9,
                updated_at := 9, last_error := none })
      (by decide)).1 (by decide)⟩

/-- Witness for C7: a processing row locked before the cutoff is reset
to pending with its lease cleared and `attempts` untouched. -/
theorem recover_abandoned_jobs_spec_witness :
    ((wProc, { wProc with
               state := .pending, locked_by := none, locked_at := none }) ∈
        [wProc].zip (recover_abandoned_jobs [wProc] 100 10)) ∧
    (wProc.state = .processing ∧
      (∃ t, wProc.locked_at = some t ∧ t < 100 - 10)) ∧
    ({ wProc with
       state := .pending, locked_by := none, locked_at := none } : Job) =
      { wProc with
        state := .pending, locked_by := none, locked_at := none } :=
  ⟨by decide, ⟨rfl, 5, rfl, by decide⟩,
   ((recover_abandoned_jobs_spec [wProc] 100 10).2
      (wProc, { wProc with
                state := .pending, locked_by := none, locked_at := none })
      (by decide)).1 ⟨rfl, 5, rfl, by decide⟩⟩

/-- Witness for C8: completing the processing row yields the completed
row with its lease cleared. -/
theorem update_job_success_idempotent_witness :
    ((wProc, { wProc with
               state := .completed, updated_at := 3,
               locked_by := none, locked_at := none }) ∈
        [wProc].zip (update_job_success [wProc] 3 "r")) ∧
    wProc.id = "r" ∧
    ({ wProc with
       state := .completed, updated_at := 3,
       locked_by := none, locked_at := none } : Job) =
      { wProc with
        state := .completed, updated_at := 3,
        locked_by := none, locked_at := none } :=
  ⟨by decide, by decide,
   ((update_job_success_idempotent [wProc] 3 11 "r").1
      (wProc, { wProc with
                state := .completed, updated_at := 3,
                locked_by := none, locked_at := none })
      (by decide)).1 (by decide)⟩

/-- Witness for C10: completing a `dead` row (no state check) still
moves it to `completed`. -/
theorem update_job_success_unconditional_witness :
    ((wDead, { wDead with
               state := .completed, updated_at := 4,
               locked_by := none, locked_at := none }) ∈
        [wDead].zip (update_job_success [wDead] 4 "d")) ∧
    wDead.id = "d" ∧
    ({ wDead with
       state := .completed, updated_at := 4,
       locked_by := none, locked_at := none } : Job) =
      { wDead with
        state := .completed, updated_at := 4,
        locked_by := none, locked_at := none } :=
  ⟨by decide, by decide,
   ((update_job_success_unconditional [wDead] 4 "d").1
      (wDead, { wDead with
                state := .completed, updated_at := 4,
                locked_by := none, locked_at := none })
      (by decide)).1 (by decide)⟩

end QueueCtl
